import Mathlib

/-!
Shallow embedding of `sid.go` from the `mstypes` repository: the RPC_SID
value type with its three conversions (string rendering, binary writing,
string parsing).  Go strings are modelled as `List Char`, Go byte slices as
`List Nat` (each element a byte value), and machine integers as `Nat` with
explicit `% 2 ^ w` at the points where the Go code performs a narrowing
conversion.  Fallible operations return `Option`; the Go pattern of
returning a pointer plus an error is modelled as `Option RPCSID × Option
SIDError`.
-/

/-- The RPC_SID structure from `sid.go`.  `Revision` and
`SubAuthorityCount` are `uint8` values, `IdentifierAuthority` is a `[6]byte`
array (modelled as a list of byte values whose length is 6 for well-formed
values) and `SubAuthority` is a `[]uint32` slice. -/
structure RPCSID where
  Revision : Nat
  SubAuthorityCount : Nat
  IdentifierAuthority : List Nat
  SubAuthority : List Nat
deriving DecidableEq, Repr

/-- A Go value of type `RPCSID` always satisfies these bounds: the two
`uint8` fields are bytes, the authority array has exactly 6 byte entries and
each sub-authority is a `uint32`. -/
def RPCSID.WF (s : RPCSID) : Prop :=
  s.Revision < 256 ∧ s.SubAuthorityCount < 256 ∧
    s.IdentifierAuthority.length = 6 ∧
    (∀ b ∈ s.IdentifierAuthority, b < 256) ∧
    (∀ a ∈ s.SubAuthority, a < 4294967296)

instance (s : RPCSID) : Decidable s.WF := by
  unfold RPCSID.WF; infer_instance

/-- The zero value `RPCSID{}` produced by `&RPCSID{}` in Go. -/
def zeroRPCSID : RPCSID :=
  { Revision := 0, SubAuthorityCount := 0,
    IdentifierAuthority := [0, 0, 0, 0, 0, 0], SubAuthority := [] }

/-- The character for the decimal digit `d` (`0 ≤ d ≤ 9`). -/
def decDigitChar (d : Nat) : Char := Char.ofNat (48 + d)

/-- Fuel-indexed decimal rendering, most significant digit first; used with
fuel `n + 1` which is always sufficient since `n / 10 < n` for `n ≥ 10`. -/
def decReprAux : Nat → Nat → List Char
  | 0, _ => []
  | fuel + 1, n =>
    if n < 10 then [decDigitChar n]
    else decReprAux fuel (n / 10) ++ [decDigitChar (n % 10)]

/-- The decimal rendering of `n`, as produced by Go's `fmt.Fprintf` verb
`%d` on an unsigned integer. -/
def decRepr (n : Nat) : List Char := decReprAux (n + 1) n

/-- The numeric value of a decimal digit character, or `none` when the
character is not a digit.  Go's `strconv.ParseUint` with base 10 rejects
every non-digit character this way. -/
def digitVal (c : Char) : Option Nat :=
  if 48 ≤ c.toNat ∧ c.toNat ≤ 57 then some (c.toNat - 48) else none

/-- The accumulation loop of Go's `strconv.ParseUint`: digits are folded in
most-significant first, failing on a non-digit or as soon as the
accumulated value exceeds `maxVal`. -/
def parseUintLoop (maxVal : Nat) : Nat → List Char → Option Nat
  | n, [] => some n
  | n, c :: cs =>
    match digitVal c with
    | none => none
    | some d =>
      let n1 := n * 10 + d
      if n1 > maxVal then none else parseUintLoop maxVal n1 cs

/-- Go's `strconv.ParseUint(s, 10, 32)`: fails on the empty string, on any
non-digit character and on values exceeding `2^32 - 1`. -/
def parseUint32 (cs : List Char) : Option Nat :=
  if cs = [] then none else parseUintLoop 4294967295 0 cs

/-- Prepend a character to the first part of a split result (helper for
`splitChar`). -/
def consHead (c : Char) : List (List Char) → List (List Char)
  | [] => [[c]]
  | p :: ps => (c :: p) :: ps

/-- Go's `strings.Split(s, sep)` for a one-character separator: the parts
between occurrences of `sep`, empty parts included. -/
def splitChar (sep : Char) : List Char → List (List Char)
  | [] => [[]]
  | c :: cs =>
    if c = sep then [] :: splitChar sep cs
    else consHead c (splitChar sep cs)

/-- Prepend a prefix to the first part of a split result. -/
def prependPart (xs : List Char) : List (List Char) → List (List Char)
  | [] => [xs]
  | p :: ps => (xs ++ p) :: ps

/-- The lowercase hexadecimal digit character for `d < 16`, as used by Go's
`hex.EncodeToString`. -/
def hexDigitChar (d : Nat) : Char :=
  if d < 10 then Char.ofNat (48 + d) else Char.ofNat (87 + d)

/-- Go's `hex.EncodeToString` on a byte slice: two lowercase hex characters
per byte, high nibble first. -/
def hexEncode (bs : List Nat) : List Char :=
  (bs.map (fun b => [hexDigitChar (b / 16 % 16), hexDigitChar (b % 16)])).flatten

/-- Big-endian integer value of a byte sequence, as computed by
`binary.BigEndian.Uint64` on the 8-byte slice built in `String` (and, on a
6-byte slice, the 48-bit big-endian reading named by the spec). -/
def beUint (bs : List Nat) : Nat := bs.foldl (fun a b => a * 256 + b) 0

/-- The 4 bytes appended by `binary.BigEndian.AppendUint32`. -/
def be32 (v : Nat) : List Nat :=
  [v / 16777216 % 256, v / 65536 % 256, v / 256 % 256, v % 256]

/-- The 4 bytes written by `binary.Write` with `binary.LittleEndian` for a
`uint32` value. -/
def le32 (v : Nat) : List Nat :=
  [v % 256, v / 256 % 256, v / 65536 % 256, v / 16777216 % 256]

/-- `(*RPCSID).String` from `sid.go`: writes the literal `"S-1-"`, then the
authority (decimal if the 64-bit big-endian reading of the two zero bytes
followed by the 6 authority bytes is at most `math.MaxUint32`, otherwise
`"0x"` plus the lowercase hex encoding of the 6 raw bytes), then `-<sub>`
for each entry of the `SubAuthority` slice in order. -/
def RPCSID.string (s : RPCSID) : List Char :=
  let b := [0, 0] ++ s.IdentifierAuthority
  let i := beUint b
  ("S-1-").toList ++
    (if i > 4294967295 then '0' :: 'x' :: hexEncode s.IdentifierAuthority
     else decRepr i) ++
    (s.SubAuthority.map (fun sub => '-' :: decRepr sub)).flatten

/-- The sub-authority loop of `(*RPCSID).ToWriter`: after `k` iterations the
bytes written are those of `SubAuthority[0]`, …, `SubAuthority[k-1]`, each
as a little-endian `uint32`; indexing past the end of the slice is the Go
runtime panic `index out of range`, modelled as `none`. -/
def writeSubAuthLoop (subs : List Nat) : Nat → Option (List Nat)
  | 0 => some []
  | k + 1 =>
    match writeSubAuthLoop subs k with
    | none => none
    | some acc =>
      match subs.get? k with
      | none => none
      | some a => some (acc ++ le32 (a % 4294967296))

/-- `(*RPCSID).ToWriter` from `sid.go`, with the destination writer modelled
as the byte sequence it receives (an in-memory sink that never rejects a
write): revision byte, count byte, the 6 raw authority bytes, then
`SubAuthorityCount` little-endian `uint32` entries.  `none` models the
out-of-range panic raised when `SubAuthorityCount` exceeds the slice
length. -/
def RPCSID.toWriter (s : RPCSID) : Option (List Nat) :=
  match writeSubAuthLoop s.SubAuthority s.SubAuthorityCount with
  | none => none
  | some subBytes =>
    some ([s.Revision % 256, s.SubAuthorityCount % 256] ++
      s.IdentifierAuthority ++ subBytes)

/-- The error values produced by `ConvertStrToSID`, one per `fmt.Errorf`
call site in `sid.go`. -/
inductive SIDError
  /-- "Invalid SID representation" -/
  | invalidSid
  /-- "could't convert revision to string: …" -/
  | revisionErr
  /-- "could't convert authority to string: …" -/
  | authorityErr
  /-- "could't convert subauthority to string: …" -/
  | subAuthorityErr
deriving DecidableEq, Repr

/-- The `parts[3:]` loop of `ConvertStrToSID`: each part is parsed with
`strconv.ParseUint(part, 10, 32)`, appended to the slice as a `uint32`, and
the byte counter `subCount` is incremented (wrapping at 256, as Go's `byte`
arithmetic does). -/
def subAuthLoop : List (List Char) → List Nat → Nat → Option (List Nat × Nat)
  | [], subAuths, subCount => some (subAuths, subCount)
  | p :: ps, subAuths, subCount =>
    match parseUint32 p with
    | none => none
    | some a => subAuthLoop ps (subAuths ++ [a % 4294967296]) ((subCount + 1) % 256)

/-- `ConvertStrToSID` from `sid.go`.  The result models Go's
`(sid *RPCSID, err error)` pair: the first component is the returned
pointer (`none` for `nil`), the second the returned error.  Note that the
too-few-parts path performs a naked `return`, so it returns the freshly
allocated zero value `&RPCSID{}` together with the error, while the numeric
conversion failures return `nil`. -/
def ConvertStrToSID (s : List Char) : Option RPCSID × Option SIDError :=
  let parts := splitChar '-' s
  if parts.length < 4 then
    (some zeroRPCSID, some SIDError.invalidSid)
  else
    match parseUint32 (parts.getD 1 []) with
    | none => (none, some SIDError.revisionErr)
    | some rev =>
      match parseUint32 (parts.getD 2 []) with
      | none => (none, some SIDError.authorityErr)
      | some auth =>
        match subAuthLoop (parts.drop 3) [] 0 with
        | none => (none, some SIDError.subAuthorityErr)
        | some (subAuths, subCount) =>
          (some { Revision := rev % 256,
                  SubAuthorityCount := subCount,
                  IdentifierAuthority := [0, 0] ++ be32 (auth % 4294967296),
                  SubAuthority := subAuths }, none)

/-! ### Decimal digits -/

lemma digitVal_decDigitChar (d : Nat) (h : d < 10) :
    digitVal (decDigitChar d) = some d := by
  interval_cases d <;> decide

lemma decDigitChar_ne_dash (d : Nat) (h : d < 10) : decDigitChar d ≠ '-' := by
  interval_cases d <;> decide

lemma decReprAux_no_dash : ∀ f n, n < f → '-' ∉ decReprAux f n := by
  intro f
  induction f with
  | zero => intro n hn; omega
  | succ f ih =>
    intro n hn
    by_cases h10 : n < 10
    · simp only [decReprAux, if_pos h10, List.mem_singleton]
      exact fun h => decDigitChar_ne_dash n h10 h.symm
    · have hdiv : n / 10 < f := by
        have := Nat.div_lt_self (by omega : 0 < n) (by omega : 1 < 10)
        omega
      simp only [decReprAux, if_neg h10, List.mem_append, List.mem_singleton]
      rintro (h | h)
      · exact ih (n / 10) hdiv h
      · exact decDigitChar_ne_dash (n % 10) (Nat.mod_lt _ (by omega)) h.symm

lemma decReprAux_ne_nil : ∀ f n, n < f → decReprAux f n ≠ [] := by
  intro f
  induction f with
  | zero => intro n hn; omega
  | succ f _ =>
    intro n _
    by_cases h10 : n < 10
    · simp [decReprAux, if_pos h10]
    · simp [decReprAux, if_neg h10]

lemma decRepr_no_dash (n : Nat) : '-' ∉ decRepr n :=
  decReprAux_no_dash (n + 1) n (Nat.lt_succ_self n)

lemma decRepr_ne_nil (n : Nat) : decRepr n ≠ [] :=
  decReprAux_ne_nil (n + 1) n (Nat.lt_succ_self n)

lemma parseUintLoop_append (maxVal acc : Nat) (xs ys : List Char) :
    parseUintLoop maxVal acc (xs ++ ys) =
      (parseUintLoop maxVal acc xs).bind (fun m => parseUintLoop maxVal m ys) := by
  induction xs generalizing acc with
  | nil => simp [parseUintLoop]
  | cons c cs ih =>
    simp only [List.cons_append, parseUintLoop]
    cases digitVal c with
    | none => simp
    | some d =>
      simp only
      by_cases h : acc * 10 + d > maxVal
      · simp [if_pos h]
      · simp only [if_neg h]
        exact ih _

lemma parseUintLoop_digit (maxVal acc d : Nat) (hd : d < 10)
    (h : acc * 10 + d ≤ maxVal) :
    parseUintLoop maxVal acc [decDigitChar d] = some (acc * 10 + d) := by
  have h1 : digitVal (decDigitChar d) = some d := digitVal_decDigitChar d hd
  have h2 : ¬ maxVal < acc * 10 + d := Nat.not_lt.mpr h
  simp [parseUintLoop, h1, h2]

lemma parseUintLoop_decReprAux :
    ∀ f n acc maxVal, n < f →
      acc * 10 ^ (decReprAux f n).length + n ≤ maxVal →
      parseUintLoop maxVal acc (decReprAux f n) =
        some (acc * 10 ^ (decReprAux f n).length + n) := by
  intro f
  induction f with
  | zero => intro n acc maxVal hn; omega
  | succ f ih =>
    intro n acc maxVal hn hle
    by_cases h10 : n < 10
    · simp only [decReprAux, if_pos h10, List.length_singleton, pow_one] at hle ⊢
      exact parseUintLoop_digit maxVal acc n h10 hle
    · have hdiv : n / 10 < f := by
        have := Nat.div_lt_self (by omega : 0 < n) (by omega : 1 < 10)
        omega
      simp only [decReprAux, if_neg h10, List.length_append,
        List.length_singleton] at hle ⊢
      set L := (decReprAux f (n / 10)).length with hL
      rw [pow_succ, ← mul_assoc] at hle ⊢
      have hmod : n % 10 < 10 := Nat.mod_lt _ (by omega)
      have hle2 : acc * 10 ^ L + n / 10 ≤ maxVal := by
        generalize acc * 10 ^ L = X at hle ⊢
        omega
      have hstep : (acc * 10 ^ L + n / 10) * 10 + n % 10 ≤ maxVal := by
        generalize acc * 10 ^ L = X at hle ⊢
        omega
      rw [parseUintLoop_append, ih (n / 10) acc maxVal hdiv hle2]
      rw [Option.some_bind, parseUintLoop_digit maxVal _ _ hmod hstep]
      congr 1
      generalize acc * 10 ^ L = X
      omega

lemma parseUint32_decRepr (n : Nat) (h : n ≤ 4294967295) :
    parseUint32 (decRepr n) = some n := by
  rw [parseUint32, if_neg (decRepr_ne_nil n)]
  have := parseUintLoop_decReprAux (n + 1) n 0 4294967295 (Nat.lt_succ_self n)
    (by simpa using h)
  simpa using this

/-! ### Splitting on the dash separator -/

lemma splitChar_ne_nil (sep : Char) : ∀ l, splitChar sep l ≠ [] := by
  intro l
  induction l with
  | nil => simp [splitChar]
  | cons c cs ih =>
    by_cases h : c = sep
    · simp [splitChar, h]
    · simp only [splitChar, if_neg h]
      cases splitChar sep cs with
      | nil => simp [consHead]
      | cons p ps => simp [consHead]

lemma consHead_prependPart (c : Char) (xs : List Char)
    (l : List (List Char)) :
    consHead c (prependPart xs l) = prependPart (c :: xs) l := by
  cases l <;> simp [consHead, prependPart]

lemma splitChar_append_no_sep (sep : Char) :
    ∀ xs ys, sep ∉ xs →
      splitChar sep (xs ++ ys) = prependPart xs (splitChar sep ys) := by
  intro xs
  induction xs with
  | nil =>
    intro ys _
    obtain ⟨p, ps, hps⟩ : ∃ p ps, splitChar sep ys = p :: ps := by
      cases h : splitChar sep ys with
      | nil => exact absurd h (splitChar_ne_nil sep ys)
      | cons p ps => exact ⟨p, ps, rfl⟩
    simp [hps, prependPart]
  | cons c cs ih =>
    intro ys hmem
    have hc : c ≠ sep := fun h => hmem (by simp [h])
    have hcs : sep ∉ cs := fun h => hmem (List.mem_cons_of_mem c h)
    simp only [List.cons_append, splitChar, if_neg hc]
    rw [show cs.append ys = cs ++ ys from rfl, ih ys hcs, consHead_prependPart]

lemma splitChar_append_sep (sep : Char) (xs ys : List Char) (hx : sep ∉ xs) :
    splitChar sep (xs ++ sep :: ys) = xs :: splitChar sep ys := by
  rw [splitChar_append_no_sep sep xs (sep :: ys) hx]
  have : splitChar sep (sep :: ys) = [] :: splitChar sep ys := by
    simp [splitChar]
  rw [this]
  simp [prependPart]

lemma splitChar_no_sep (sep : Char) (xs : List Char) (hx : sep ∉ xs) :
    splitChar sep xs = [xs] := by
  have := splitChar_append_no_sep sep xs [] hx
  simpa [splitChar, prependPart] using this

lemma splitChar_dashJoin :
    ∀ (subs : List Nat) (xs : List Char), '-' ∉ xs →
      splitChar '-' (xs ++ (subs.map (fun a => '-' :: decRepr a)).flatten) =
        xs :: subs.map decRepr := by
  intro subs
  induction subs with
  | nil => intro xs hx; simpa using splitChar_no_sep '-' xs hx
  | cons a rest ih =>
    intro xs hx
    have h1 : xs ++ ((a :: rest).map (fun a => '-' :: decRepr a)).flatten =
        xs ++ '-' :: (decRepr a ++
          (rest.map (fun a => '-' :: decRepr a)).flatten) := by
      simp
    rw [h1, splitChar_append_sep '-' xs _ hx, ih (decRepr a) (decRepr_no_dash a)]
    simp

/-! ### Authority bytes -/

lemma beUint_pad (bs : List Nat) : beUint ([0, 0] ++ bs) = beUint bs := by
  simp [beUint]

lemma be32_beUint (bs : List Nat) (hlen : bs.length = 6)
    (hb : ∀ b ∈ bs, b < 256) (hle : beUint bs ≤ 4294967295) :
    [0, 0] ++ be32 (beUint bs % 4294967296) = bs := by
  rcases bs with _ | ⟨b0, _ | ⟨b1, _ | ⟨b2, _ | ⟨b3, _ | ⟨b4, _ | ⟨b5, _ | ⟨b6, t⟩⟩⟩⟩⟩⟩⟩ <;>
      simp only [List.length_cons, List.length_nil] at hlen <;> try omega
  have h0 : b0 < 256 := hb _ (by simp)
  have h1 : b1 < 256 := hb _ (by simp)
  have h2 : b2 < 256 := hb _ (by simp)
  have h3 : b3 < 256 := hb _ (by simp)
  have h4 : b4 < 256 := hb _ (by simp)
  have h5 : b5 < 256 := hb _ (by simp)
  simp only [beUint, List.foldl_cons, List.foldl_nil] at hle ⊢
  simp only [be32, List.cons_append, List.nil_append, List.cons.injEq,
    and_true]
  omega

/-! ### The sub-authority parse loop -/

lemma subAuthLoop_map :
    ∀ (subs : List Nat) (acc : List Nat) (c : Nat), c < 256 →
      (∀ a ∈ subs, a < 4294967296) →
      subAuthLoop (subs.map decRepr) acc c =
        some (acc ++ subs, (c + subs.length) % 256) := by
  intro subs
  induction subs with
  | nil =>
    intro acc c hc _
    simp [subAuthLoop, Nat.mod_eq_of_lt hc]
  | cons a rest ih =>
    intro acc c hc hbound
    have ha : a < 4294967296 := hbound a (List.mem_cons_self a rest)
    have hrest : ∀ x ∈ rest, x < 4294967296 :=
      fun x hx => hbound x (List.mem_cons_of_mem a hx)
    simp only [List.map_cons, subAuthLoop,
      parseUint32_decRepr a (by omega : a ≤ 4294967295)]
    rw [Nat.mod_eq_of_lt ha,
      ih (acc ++ [a]) ((c + 1) % 256) (Nat.mod_lt _ (by omega)) hrest]
    congr 2
    · simp
    · simp only [List.length_cons]
      rw [Nat.mod_add_mod]
      congr 1
      omega

lemma subAuthLoop_some :
    ∀ (ps : List (List Char)) (acc : List Nat) (c : Nat) as cnt, c < 256 →
      subAuthLoop ps acc c = some (as, cnt) →
      cnt = (c + ps.length) % 256 ∧ as.length = acc.length + ps.length := by
  intro ps
  induction ps with
  | nil =>
    intro acc c as cnt hc h
    simp only [subAuthLoop, Option.some_inj, Prod.mk.injEq] at h
    obtain ⟨h1, h2⟩ := h
    subst h1; subst h2
    simp [Nat.mod_eq_of_lt hc]
  | cons p rest ih =>
    intro acc c as cnt hc h
    simp only [subAuthLoop] at h
    cases hp : parseUint32 p with
    | none => rw [hp] at h; simp at h
    | some a =>
      rw [hp] at h
      simp only at h
      obtain ⟨h1, h2⟩ :=
        ih (acc ++ [a % 4294967296]) ((c + 1) % 256) as cnt
          (Nat.mod_lt _ (by omega)) h
      have hlen : (acc ++ [a % 4294967296]).length = acc.length + 1 := by
        simp
      rw [hlen] at h2
      simp only [List.length_cons]
      exact ⟨by omega, by omega⟩

lemma subAuthLoop_isSome :
    ∀ (ps : List (List Char)) (acc : List Nat) (c : Nat),
      (∀ p ∈ ps, (parseUint32 p).isSome = true) →
      (subAuthLoop ps acc c).isSome = true := by
  intro ps
  induction ps with
  | nil => intro acc c _; simp [subAuthLoop]
  | cons p rest ih =>
    intro acc c h
    have hp := h p (List.mem_cons_self p rest)
    simp only [subAuthLoop]
    cases hcase : parseUint32 p with
    | none => rw [hcase] at hp; simp at hp
    | some a =>
      simp only
      exact ih _ _ (fun q hq => h q (List.mem_cons_of_mem p hq))

/-! ### The binary write loop -/

lemma writeSubAuthLoop_le (subs : List Nat) :
    ∀ k, k ≤ subs.length →
      writeSubAuthLoop subs k =
        some (((subs.take k).map (fun a => le32 (a % 4294967296))).flatten) := by
  intro k
  induction k with
  | zero => intro _; simp [writeSubAuthLoop]
  | succ k ih =>
    intro hk
    have hk1 : k ≤ subs.length := by omega
    have hklt : k < subs.length := by omega
    have hget2 : subs[k]? = some subs[k] := List.getElem?_eq_getElem hklt
    have hget : subs.get? k = some subs[k] := by
      rw [List.get?_eq_getElem?]; exact hget2
    have htake : subs.take (k + 1) = subs.take k ++ [subs[k]] := by
      rw [List.take_succ, hget2]; rfl
    simp only [writeSubAuthLoop, ih hk1, hget]
    rw [htake, List.map_append, List.flatten_append]
    simp

lemma writeSubAuthLoop_gt (subs : List Nat) :
    ∀ k, subs.length < k → writeSubAuthLoop subs k = none := by
  intro k
  induction k with
  | zero => intro h; omega
  | succ k ih =>
    intro hk
    have hget : subs.get? k = none := by
      rw [List.get?_eq_none]
      omega
    simp only [writeSubAuthLoop, hget]
    cases writeSubAuthLoop subs k <;> simp

/-! ### Miscellaneous evaluation lemmas -/

lemma parseUint32_0x (rest : List Char) :
    parseUint32 ('0' :: 'x' :: rest) = none := by
  simp [parseUint32, parseUintLoop, digitVal]

lemma hexEncode_length (bs : List Nat) :
    (hexEncode bs).length = 2 * bs.length := by
  induction bs with
  | nil => simp [hexEncode]
  | cons b t ih => simp [hexEncode] at ih ⊢; omega

lemma hexDigitChar_mem (d : Nat) (h : d < 16) :
    hexDigitChar d ∈ ("0123456789abcdef").toList := by
  interval_cases d <;> decide

lemma hexEncode_chars (bs : List Nat) :
    ∀ c ∈ hexEncode bs, c ∈ ("0123456789abcdef").toList := by
  intro c hc
  rw [hexEncode, List.mem_flatten] at hc
  obtain ⟨l, hl, hcl⟩ := hc
  rw [List.mem_map] at hl
  obtain ⟨b, _, rfl⟩ := hl
  simp only [List.mem_cons, List.not_mem_nil, or_false] at hcl
  rcases hcl with rfl | rfl <;>
    exact hexDigitChar_mem _ (Nat.mod_lt _ (by omega))

/-! ### The shape of the rendered string -/

lemma string_eq_small (s : RPCSID)
    (h : beUint s.IdentifierAuthority ≤ 4294967295) :
    s.string = ['S'] ++ '-' :: (['1'] ++ '-' ::
      (decRepr (beUint s.IdentifierAuthority) ++
        (s.SubAuthority.map (fun a => '-' :: decRepr a)).flatten)) := by
  have hpad : beUint ([0, 0] ++ s.IdentifierAuthority) =
      beUint s.IdentifierAuthority := beUint_pad _
  simp only [RPCSID.string, hpad]
  rw [if_neg (by omega)]
  simp

lemma splitChar_string (s : RPCSID)
    (h : beUint s.IdentifierAuthority ≤ 4294967295) :
    splitChar '-' s.string =
      ['S'] :: ['1'] :: decRepr (beUint s.IdentifierAuthority) ::
        s.SubAuthority.map decRepr := by
  rw [string_eq_small s h,
    splitChar_append_sep '-' ['S'] _ (by decide),
    splitChar_append_sep '-' ['1'] _ (by decide),
    splitChar_dashJoin s.SubAuthority _ (decRepr_no_dash _)]

lemma flatten_map_le32_length (l : List Nat) :
    ((l.map le32).flatten).length = 4 * l.length := by
  induction l with
  | nil => simp
  | cons a t ih => simp [le32] at ih ⊢; omega

/-- C2 (counterexample): the claim says the rendered string begins with
`"S-"` followed by the decimal value of the revision field.  For a SID with
revision 2 the renderer still produces `"S-1-5"`, whose third character is
`'1'`, not the decimal rendering of the revision. -/
theorem string_revision_two_renders_one :
    RPCSID.string
      { Revision := 2, SubAuthorityCount := 0,
        IdentifierAuthority := [0, 0, 0, 0, 0, 5], SubAuthority := [] } =
      ("S-1-5").toList ∧
    decRepr 2 = ['2'] ∧
    ¬ (RPCSID.string
      { Revision := 2, SubAuthorityCount := 0,
        IdentifierAuthority := [0, 0, 0, 0, 0, 5],
        SubAuthority := [] }).take 3 = ['S', '-'] ++ decRepr 2 := by
  decide

/-- C2 (amended): the rendered string always begins with the fixed literal
`"S-1-"`, whatever the revision field holds; the output does not depend on
the revision field at all. -/
theorem string_starts_with_literal :
    ∀ s : RPCSID, s.string.take 4 = ("S-1-").toList ∧
      ∀ r : Nat, ({ s with Revision := r } : RPCSID).string = s.string := by
  intro s
  constructor
  · simp only [RPCSID.string]
    rw [show ("S-1-").toList = 'S' :: '-' :: '1' :: '-' :: ([] : List Char)
      from rfl]
    simp
  · intro r
    rfl

/-- C10: rendering is a total function of the SID value (it returns a string
for every in-memory value, with no error channel in the model, mirroring the
absence of any failure condition in the source) and its output never depends
on the `SubAuthorityCount` field, because the loop ranges over the actual
`SubAuthority` sequence. -/
theorem string_ignores_count :
    ∀ (s : RPCSID) (c : Nat),
      ({ s with SubAuthorityCount := c } : RPCSID).string = s.string := by
  intro s c
  rfl

/-- C6: the renderer's authority value — obtained in the code by left-padding
the 6 authority bytes with 2 zero bytes and reading 8 bytes big-endian — is
exactly the 48-bit big-endian reading of the 6 bytes; values above
4294967295 render as `0x` plus the lowercase hex encoding of the raw bytes
(12 lowercase hex characters for the 6 bytes), others in decimal.  Authority
bytes {0,0,0,0,0,5} give `S-1-5` and {1,0,0,0,0,0} give
`S-1-0x010000000000`. -/
theorem authority_threshold :
    (∀ s : RPCSID,
      s.string = ("S-1-").toList ++
        (if beUint s.IdentifierAuthority > 4294967295
         then '0' :: 'x' :: hexEncode s.IdentifierAuthority
         else decRepr (beUint s.IdentifierAuthority)) ++
        (s.SubAuthority.map (fun a => '-' :: decRepr a)).flatten) ∧
    (∀ s : RPCSID, s.IdentifierAuthority.length = 6 →
      (hexEncode s.IdentifierAuthority).length = 12 ∧
      ∀ c ∈ hexEncode s.IdentifierAuthority,
        c ∈ ("0123456789abcdef").toList) ∧
    RPCSID.string
      { Revision := 1, SubAuthorityCount := 0,
        IdentifierAuthority := [0, 0, 0, 0, 0, 5], SubAuthority := [] } =
      ("S-1-5").toList ∧
    RPCSID.string
      { Revision := 1, SubAuthorityCount := 0,
        IdentifierAuthority := [1, 0, 0, 0, 0, 0], SubAuthority := [] } =
      ("S-1-0x010000000000").toList := by
  refine ⟨?_, ?_, by decide, by decide⟩
  · intro s
    simp only [RPCSID.string, beUint_pad]
  · intro s h6
    exact ⟨by rw [hexEncode_length, h6], hexEncode_chars _⟩

/-- C6 (witness): the hypothesis-bearing conjunct applied to a concrete SID
with a large authority. -/
theorem authority_threshold_witness :
    (hexEncode (RPCSID.IdentifierAuthority
      { Revision := 1, SubAuthorityCount := 0,
        IdentifierAuthority := [1, 0, 0, 0, 0, 0],
        SubAuthority := [] })).length = 12 :=
  (authority_threshold.2.1
    { Revision := 1, SubAuthorityCount := 0,
      IdentifierAuthority := [1, 0, 0, 0, 0, 0], SubAuthority := [] }
    (by decide)).1

/-- C3: the binary write loop is bounded by `SubAuthorityCount`, not by the
length of `SubAuthority`: when the count exceeds the length the write fails
with the out-of-range error (modelled as `none`), and when the count is at
most the length exactly the first `SubAuthorityCount` entries are emitted
and the rest are dropped. -/
theorem count_governs_write (s : RPCSID) :
    (s.SubAuthority.length < s.SubAuthorityCount → s.toWriter = none) ∧
    (s.SubAuthorityCount ≤ s.SubAuthority.length →
      s.toWriter = some ([s.Revision % 256, s.SubAuthorityCount % 256] ++
        s.IdentifierAuthority ++
        ((s.SubAuthority.take s.SubAuthorityCount).map
          (fun a => le32 (a % 4294967296))).flatten)) := by
  constructor
  · intro h
    simp only [RPCSID.toWriter,
      writeSubAuthLoop_gt s.SubAuthority s.SubAuthorityCount h]
  · intro h
    simp only [RPCSID.toWriter,
      writeSubAuthLoop_le s.SubAuthority s.SubAuthorityCount h]

/-- C3 (witness): with subAuthority = [10, 20, 30], count 2 writes exactly
the entries 10 and 20 after the 8 header bytes, and count 5 fails. -/
theorem count_governs_write_witness :
    RPCSID.toWriter
      { Revision := 1, SubAuthorityCount := 2,
        IdentifierAuthority := [0, 0, 0, 0, 0, 5],
        SubAuthority := [10, 20, 30] } =
      some [1, 2, 0, 0, 0, 0, 0, 5, 10, 0, 0, 0, 20, 0, 0, 0] ∧
    RPCSID.toWriter
      { Revision := 1, SubAuthorityCount := 5,
        IdentifierAuthority := [0, 0, 0, 0, 0, 5],
        SubAuthority := [10, 20, 30] } = none := by
  constructor
  · rw [(count_governs_write
      { Revision := 1, SubAuthorityCount := 2,
        IdentifierAuthority := [0, 0, 0, 0, 0, 5],
        SubAuthority := [10, 20, 30] }).2 (by decide)]
    decide
  · exact (count_governs_write
      { Revision := 1, SubAuthorityCount := 5,
        IdentifierAuthority := [0, 0, 0, 0, 0, 5],
        SubAuthority := [10, 20, 30] }).1 (by decide)

/-- C7: for a well-formed SID whose count is at most the sequence length,
the binary write emits revision (1 byte), count (1 byte), the 6 authority
bytes verbatim, then the first `SubAuthorityCount` sub-authorities as
little-endian 32-bit integers — 8 + 4 × count bytes in total. -/
theorem binary_layout (s : RPCSID) (hwf : s.WF)
    (h : s.SubAuthorityCount ≤ s.SubAuthority.length) :
    s.toWriter = some ([s.Revision, s.SubAuthorityCount] ++
      s.IdentifierAuthority ++
      ((s.SubAuthority.take s.SubAuthorityCount).map le32).flatten) ∧
    ∀ out, s.toWriter = some out →
      out.length = 8 + 4 * s.SubAuthorityCount := by
  obtain ⟨hrev, hcnt, hlen6, _, hsubs⟩ := hwf
  have hmap : (s.SubAuthority.take s.SubAuthorityCount).map
      (fun a => le32 (a % 4294967296)) =
      (s.SubAuthority.take s.SubAuthorityCount).map le32 := by
    apply List.map_congr_left
    intro a ha
    have : a < 4294967296 := hsubs a (List.take_subset _ _ ha)
    rw [Nat.mod_eq_of_lt this]
  have hW : s.toWriter = some ([s.Revision, s.SubAuthorityCount] ++
      s.IdentifierAuthority ++
      ((s.SubAuthority.take s.SubAuthorityCount).map le32).flatten) := by
    simp only [RPCSID.toWriter,
      writeSubAuthLoop_le s.SubAuthority s.SubAuthorityCount h, hmap,
      Nat.mod_eq_of_lt hrev, Nat.mod_eq_of_lt hcnt]
  refine ⟨hW, ?_⟩
  intro out hout
  rw [hW] at hout
  have hof : out = [s.Revision, s.SubAuthorityCount] ++
      s.IdentifierAuthority ++
      ((s.SubAuthority.take s.SubAuthorityCount).map le32).flatten :=
    (Option.some_inj.mp hout).symm
  rw [hof]
  simp only [List.length_append, List.length_cons, List.length_nil, hlen6,
    flatten_map_le32_length, List.length_take]
  omega

/-- C7 (witness): the layout theorem applied at a concrete SID; note the
authority bytes appear verbatim and 4294967295 becomes four 0xff bytes. -/
theorem binary_layout_witness :
    RPCSID.toWriter
      { Revision := 1, SubAuthorityCount := 2,
        IdentifierAuthority := [9, 8, 7, 6, 5, 4],
        SubAuthority := [77, 4294967295] } =
      some [1, 2, 9, 8, 7, 6, 5, 4, 77, 0, 0, 0, 255, 255, 255, 255] := by
  rw [(binary_layout
      { Revision := 1, SubAuthorityCount := 2,
        IdentifierAuthority := [9, 8, 7, 6, 5, 4],
        SubAuthority := [77, 4294967295] } (by decide) (by decide)).1]
  decide

/-! ### Case analysis of the parser -/

lemma convert_lt4 (s : List Char) (h : (splitChar '-' s).length < 4) :
    ConvertStrToSID s = (some zeroRPCSID, some SIDError.invalidSid) := by
  simp only [ConvertStrToSID]
  rw [if_pos h]

lemma convert_not_lt4 (s : List Char) (h : ¬ (splitChar '-' s).length < 4) :
    (ConvertStrToSID s).2 ≠ some SIDError.invalidSid := by
  simp only [ConvertStrToSID]
  rw [if_neg h]
  rcases parseUint32 ((splitChar '-' s).getD 1 []) with _ | rev
  · simp
  · rcases parseUint32 ((splitChar '-' s).getD 2 []) with _ | auth
    · simp
    · rcases subAuthLoop ((splitChar '-' s).drop 3) [] 0 with _ | ⟨subs, cnt⟩
      · simp
      · simp

lemma convert_cases (s : List Char) :
    (∃ sid, ConvertStrToSID s = (some sid, none)) ∨
    ConvertStrToSID s = (some zeroRPCSID, some SIDError.invalidSid) ∨
    ConvertStrToSID s = (none, some SIDError.revisionErr) ∨
    ConvertStrToSID s = (none, some SIDError.authorityErr) ∨
    ConvertStrToSID s = (none, some SIDError.subAuthorityErr) := by
  simp only [ConvertStrToSID]
  by_cases hlen : (splitChar '-' s).length < 4
  · rw [if_pos hlen]
    exact Or.inr (Or.inl rfl)
  · rw [if_neg hlen]
    rcases parseUint32 ((splitChar '-' s).getD 1 []) with _ | rev
    · exact Or.inr (Or.inr (Or.inl rfl))
    · rcases parseUint32 ((splitChar '-' s).getD 2 []) with _ | auth
      · exact Or.inr (Or.inr (Or.inr (Or.inl rfl)))
      · rcases subAuthLoop ((splitChar '-' s).drop 3) [] 0 with _ | ⟨subs, cnt⟩
        · exact Or.inr (Or.inr (Or.inr (Or.inr rfl)))
        · exact Or.inl ⟨_, rfl⟩

/-- C8: the parser reports the format error exactly when splitting on `-`
yields fewer than 4 parts, and that part count is the only structural check:
whenever there are at least 4 parts and every part from index 1 on parses as
a decimal `uint32`, the parse succeeds — part 0 is never examined. -/
theorem parse_structural_check (s : List Char) :
    ((ConvertStrToSID s).2 = some SIDError.invalidSid ↔
      (splitChar '-' s).length < 4) ∧
    (4 ≤ (splitChar '-' s).length →
      (∀ p ∈ (splitChar '-' s).drop 1, (parseUint32 p).isSome = true) →
      (ConvertStrToSID s).2 = none) := by
  constructor
  · constructor
    · intro h
      by_contra hlen
      exact convert_not_lt4 s hlen h
    · intro hlen
      rw [convert_lt4 s hlen]
  · intro hlen hall
    rcases hp : splitChar '-' s with _ | ⟨p0, t0⟩
    · exact absurd hp (splitChar_ne_nil '-' s)
    rcases t0 with _ | ⟨p1, t1⟩
    · rw [hp] at hlen; simp at hlen
    rcases t1 with _ | ⟨p2, t2⟩
    · rw [hp] at hlen; simp at hlen
    rcases t2 with _ | ⟨p3, rest⟩
    · rw [hp] at hlen; simp at hlen
    rw [hp] at hall
    simp only [List.drop_succ_cons, List.drop_zero] at hall
    have h1 := hall p1 (by simp)
    have h2 := hall p2 (by simp)
    have hrest : ∀ p ∈ p3 :: rest, (parseUint32 p).isSome = true := by
      intro p hpp
      exact hall p (by simp [hpp])
    simp only [ConvertStrToSID, hp]
    rw [if_neg (by simp only [List.length_cons]; omega)]
    simp only [List.getD_cons_succ, List.getD_cons_zero, List.drop_succ_cons,
      List.drop_zero]
    obtain ⟨rev, hrev⟩ := Option.isSome_iff_exists.mp h1
    obtain ⟨auth, hauth⟩ := Option.isSome_iff_exists.mp h2
    rw [hrev, hauth]
    obtain ⟨⟨subs, cnt⟩, hpair⟩ :=
      Option.isSome_iff_exists.mp (subAuthLoop_isSome (p3 :: rest) [] 0 hrest)
    rw [hpair]

/-- C8 (witness): part 0 may be anything (`X-1-5-21` parses), and the
3-part string `S-1-5` is rejected with the format error. -/
theorem parse_structural_check_witness :
    (ConvertStrToSID (("X-1-5-21").toList)).2 = none ∧
    (ConvertStrToSID (("S-1-5").toList)).2 = some SIDError.invalidSid := by
  constructor
  · exact (parse_structural_check (("X-1-5-21").toList)).2 (by decide)
      (by decide)
  · exact (parse_structural_check (("S-1-5").toList)).1.mpr (by decide)

/-- C9 (counterexample): the claim says parsing fails with a numeric
conversion error whenever part 2 is the renderer's `0x…` authority form;
but for `S-1-0x010000000000` (the exact render of a large-authority SID
with no sub-authorities) the split yields only 3 parts, so the parser fails
with the format error, not a numeric conversion error. -/
theorem hex_authority_format_error :
    (splitChar '-' (("S-1-0x010000000000").toList)).getD 2 [] =
      ("0x010000000000").toList ∧
    ConvertStrToSID (("S-1-0x010000000000").toList) =
      (some zeroRPCSID, some SIDError.invalidSid) ∧
    SIDError.invalidSid ≠ SIDError.revisionErr ∧
    SIDError.invalidSid ≠ SIDError.authorityErr ∧
    SIDError.invalidSid ≠ SIDError.subAuthorityErr := by
  decide

/-- C9 (amended): whenever the split has at least 4 parts and part 2 begins
with `0x` (in particular when it is the renderer's hex authority form), the
parse returns nil and fails with a numeric conversion error — the revision
error if part 1 is itself unparsable, otherwise the authority error; so
parse never inverts render for authorities above 4294967295. -/
theorem hex_authority_rejected (s : List Char) (rest : List Char)
    (h4 : 4 ≤ (splitChar '-' s).length)
    (hx : (splitChar '-' s).getD 2 [] = '0' :: 'x' :: rest) :
    (ConvertStrToSID s).1 = none ∧
      ((ConvertStrToSID s).2 = some SIDError.revisionErr ∨
       (ConvertStrToSID s).2 = some SIDError.authorityErr) := by
  have hlen : ¬ (splitChar '-' s).length < 4 := by omega
  simp only [ConvertStrToSID]
  rw [if_neg hlen]
  rcases parseUint32 ((splitChar '-' s).getD 1 []) with _ | rev
  · exact ⟨rfl, Or.inl rfl⟩
  · rw [hx, parseUint32_0x rest]
    exact ⟨rfl, Or.inr rfl⟩

/-- C9 (witness): the amended theorem applied to the rendered form of a
large-authority SID with one sub-authority. -/
theorem hex_authority_rejected_witness :
    (ConvertStrToSID (("S-1-0x010000000000-21").toList)).1 = none ∧
      ((ConvertStrToSID (("S-1-0x010000000000-21").toList)).2 =
          some SIDError.revisionErr ∨
       (ConvertStrToSID (("S-1-0x010000000000-21").toList)).2 =
          some SIDError.authorityErr) :=
  hex_authority_rejected (("S-1-0x010000000000-21").toList)
    (("010000000000").toList) (by decide) (by decide)

/-- C5 (counterexample): the claim says no failure path returns a usable
SID value; but the too-few-parts failure path performs a naked `return`
after assigning the error, so it returns the freshly allocated zero-valued
`&RPCSID{}` (non-nil) together with the error. -/
theorem format_error_returns_zero_sid :
    ConvertStrToSID (("S-1-5").toList) =
      (some zeroRPCSID, some SIDError.invalidSid) ∧
    (ConvertStrToSID (("S-1-5").toList)).1.isSome = true ∧
    (ConvertStrToSID (("S-1-5").toList)).2.isSome = true := by
  decide

/-- C5 (amended): on every failure path the parser returns no
partially-populated SID: the numeric conversion failures return nil, while
the format-error path returns exactly the zero-valued sentinel `&RPCSID{}`
alongside the error. -/
theorem failure_paths (s : List Char) (e : SIDError)
    (h : (ConvertStrToSID s).2 = some e) :
    (e = SIDError.invalidSid ∧ (ConvertStrToSID s).1 = some zeroRPCSID) ∨
    (e ≠ SIDError.invalidSid ∧ (ConvertStrToSID s).1 = none) := by
  rcases convert_cases s with ⟨sid, heq⟩ | heq | heq | heq | heq
  · rw [heq] at h
    simp at h
  · rw [heq] at h ⊢
    obtain rfl : SIDError.invalidSid = e := by simpa using h
    exact Or.inl ⟨rfl, rfl⟩
  · rw [heq] at h ⊢
    obtain rfl : SIDError.revisionErr = e := by simpa using h
    exact Or.inr ⟨by decide, rfl⟩
  · rw [heq] at h ⊢
    obtain rfl : SIDError.authorityErr = e := by simpa using h
    exact Or.inr ⟨by decide, rfl⟩
  · rw [heq] at h ⊢
    obtain rfl : SIDError.subAuthorityErr = e := by simpa using h
    exact Or.inr ⟨by decide, rfl⟩

/-- C5 (witness): a numeric conversion failure (`S-1-5-abc`) indeed returns
nil. -/
theorem failure_paths_witness :
    (ConvertStrToSID (("S-1-5-abc").toList)).1 = none := by
  have h := failure_paths (("S-1-5-abc").toList) SIDError.subAuthorityErr
    (by decide)
  rcases h with ⟨he, _⟩ | ⟨_, h1⟩
  · exact absurd he (by decide)
  · exact h1

set_option maxRecDepth 10000 in
/-- C4 (counterexample): the claim says the count equals the sequence
length on every successful parse, for any number of segments; but the
running counter is a Go `byte`, so an input with 256 sub-authority segments
parses successfully with `SubAuthorityCount = 0` while the sequence has 256
entries. -/
theorem count_wraps_at_256 :
    ConvertStrToSID ('S' :: '-' :: '1' :: '-' :: '5' ::
        (List.replicate 256 ['-', '0']).flatten) =
      (some { Revision := 1, SubAuthorityCount := 0,
              IdentifierAuthority := [0, 0, 0, 0, 0, 5],
              SubAuthority := List.replicate 256 0 }, none) ∧
    ¬ (0 : Nat) = (List.replicate 256 (0 : Nat)).length := by
  exact ⟨by decide, by decide⟩

/-- C4 (amended): on every successful parse, `SubAuthorityCount` equals the
length of `SubAuthority` reduced modulo 256 (so they agree exactly whenever
the input has fewer than 256 sub-authority segments). -/
theorem count_eq_length_mod (s : List Char) (sid : RPCSID)
    (h1 : (ConvertStrToSID s).1 = some sid)
    (h2 : (ConvertStrToSID s).2 = none) :
    sid.SubAuthorityCount = sid.SubAuthority.length % 256 := by
  revert h1 h2
  simp only [ConvertStrToSID]
  by_cases hlen : (splitChar '-' s).length < 4
  · rw [if_pos hlen]
    intro _ h2
    simp at h2
  · rw [if_neg hlen]
    rcases parseUint32 ((splitChar '-' s).getD 1 []) with _ | rev
    · intro _ h2
      simp at h2
    · rcases parseUint32 ((splitChar '-' s).getD 2 []) with _ | auth
      · intro _ h2
        simp at h2
      · rcases hloop : subAuthLoop ((splitChar '-' s).drop 3) [] 0 with
          _ | ⟨subs, cnt⟩
        · intro _ h2
          simp at h2
        · intro h1 _
          obtain ⟨hcnt, hsublen⟩ :=
            subAuthLoop_some ((splitChar '-' s).drop 3) [] 0 subs cnt
              (by omega) hloop
          simp only [Option.some_inj] at h1
          subst h1
          simp only [List.length_nil, Nat.zero_add] at hcnt hsublen
          rw [hcnt, hsublen]

/-- C4 (witness): a successful parse with one sub-authority segment, where
the count equals the length modulo 256 (and hence the length itself). -/
theorem count_eq_length_mod_witness :
    RPCSID.SubAuthorityCount
      { Revision := 1, SubAuthorityCount := 1,
        IdentifierAuthority := [0, 0, 0, 0, 0, 5], SubAuthority := [21] } =
    (RPCSID.SubAuthority
      { Revision := 1, SubAuthorityCount := 1,
        IdentifierAuthority := [0, 0, 0, 0, 0, 5],
        SubAuthority := [21] }).length % 256 :=
  count_eq_length_mod (("S-1-5-21").toList)
    { Revision := 1, SubAuthorityCount := 1,
      IdentifierAuthority := [0, 0, 0, 0, 0, 5], SubAuthority := [21] }
    (by decide) (by decide)

/-- C1 (counterexample): a SID with revision 2 satisfies the claim's
hypotheses (consistent count, authority 5 ≤ 4294967295), yet parsing its
rendered string does not reproduce it: the renderer writes the literal
`S-1-` whatever the revision, so the parse returns the same SID with
revision 1 instead. -/
theorem string_roundtrip_counterexample :
    RPCSID.SubAuthorityCount
      { Revision := 2, SubAuthorityCount := 1,
        IdentifierAuthority := [0, 0, 0, 0, 0, 5], SubAuthority := [21] } =
      (RPCSID.SubAuthority
        { Revision := 2, SubAuthorityCount := 1,
          IdentifierAuthority := [0, 0, 0, 0, 0, 5],
          SubAuthority := [21] }).length ∧
    beUint (RPCSID.IdentifierAuthority
      { Revision := 2, SubAuthorityCount := 1,
        IdentifierAuthority := [0, 0, 0, 0, 0, 5],
        SubAuthority := [21] }) ≤ 4294967295 ∧
    ¬ ConvertStrToSID (RPCSID.string
      { Revision := 2, SubAuthorityCount := 1,
        IdentifierAuthority := [0, 0, 0, 0, 0, 5], SubAuthority := [21] }) =
      (some
        { Revision := 2, SubAuthorityCount := 1,
          IdentifierAuthority := [0, 0, 0, 0, 0, 5], SubAuthority := [21] },
       none) ∧
    ConvertStrToSID (RPCSID.string
      { Revision := 2, SubAuthorityCount := 1,
        IdentifierAuthority := [0, 0, 0, 0, 0, 5], SubAuthority := [21] }) =
      (some
        { Revision := 1, SubAuthorityCount := 1,
          IdentifierAuthority := [0, 0, 0, 0, 0, 5], SubAuthority := [21] },
       none) := by
  decide

/-- C1 (amended): parsing the rendered string reproduces the SID
field-for-field for every well-formed SID whose count matches the sequence
length and whose 48-bit authority value is at most 4294967295, provided
additionally that its revision is 1 (the renderer hard-codes `S-1-`) and
that it has at least one sub-authority (with none, the rendered string has
only 3 dash-separated parts and is rejected by the parser). -/
theorem string_roundtrip (V : RPCSID) (hwf : V.WF)
    (hcount : V.SubAuthorityCount = V.SubAuthority.length)
    (hauth : beUint V.IdentifierAuthority ≤ 4294967295)
    (hrev : V.Revision = 1)
    (hne : V.SubAuthority ≠ []) :
    ConvertStrToSID V.string = (some V, none) := by
  obtain ⟨rev, cnt, ia, subs⟩ := V
  obtain ⟨hrev256, hcnt256, hlen6, hbytes, hsubs⟩ := hwf
  dsimp only at hcount hauth hrev hne hlen6 hbytes hsubs hcnt256 ⊢
  subst hrev
  subst hcount
  rcases subs with _ | ⟨a, rest⟩
  · exact absurd rfl hne
  have hsplit := splitChar_string ⟨1, (a :: rest).length, ia, a :: rest⟩ hauth
  dsimp only at hsplit
  have hloop := subAuthLoop_map (a :: rest) [] 0 (by omega) hsubs
  have hIA := be32_beUint ia hlen6 hbytes hauth
  have hnotlt :
      ¬ (['S'] :: ['1'] :: decRepr (beUint ia) ::
        (a :: rest).map decRepr).length < 4 := by
    simp only [List.length_cons, List.length_map]
    omega
  simp only [ConvertStrToSID, hsplit]
  rw [if_neg hnotlt]
  simp only [List.getD_cons_succ, List.getD_cons_zero, List.drop_succ_cons,
    List.drop_zero]
  rw [show parseUint32 ['1'] = some 1 from by decide,
    parseUint32_decRepr _ hauth, hloop]
  show (some
      ({ Revision := 1 % 256,
         SubAuthorityCount := (0 + (a :: rest).length) % 256,
         IdentifierAuthority := [0, 0] ++ be32 (beUint ia % 4294967296),
         SubAuthority := [] ++ a :: rest } : RPCSID),
    (none : Option SIDError)) =
    (some
      ({ Revision := 1, SubAuthorityCount := (a :: rest).length,
         IdentifierAuthority := ia, SubAuthority := a :: rest } : RPCSID),
     none)
  rw [hIA, List.nil_append,
    show (0 + (a :: rest).length) % 256 = (a :: rest).length from by omega,
    show (1 : Nat) % 256 = 1 from by norm_num]

/-- C1 (witness): the amended round-trip theorem applied to the SID
`S-1-5-21`. -/
theorem string_roundtrip_witness :
    RPCSID.WF
      { Revision := 1, SubAuthorityCount := 1,
        IdentifierAuthority := [0, 0, 0, 0, 0, 5], SubAuthority := [21] } ∧
    ConvertStrToSID (RPCSID.string
      { Revision := 1, SubAuthorityCount := 1,
        IdentifierAuthority := [0, 0, 0, 0, 0, 5], SubAuthority := [21] }) =
      (some
        { Revision := 1, SubAuthorityCount := 1,
          IdentifierAuthority := [0, 0, 0, 0, 0, 5], SubAuthority := [21] },
       none) :=
  ⟨by decide,
    string_roundtrip
      { Revision := 1, SubAuthorityCount := 1,
        IdentifierAuthority := [0, 0, 0, 0, 0, 5], SubAuthority := [21] }
      (by decide) (by decide) (by decide) (by decide) (by decide)⟩
